import Mathlib

/-!
Shallow embedding of the skill verification engine (`src/verify.ts`):
the status reconciler `verifySkills` and the symlink integrity checker
`checkSymlinkIntegrity`, together with theorems about their behaviour.

Filesystem observations and external collaborators (path library, lock
reader results, installer discovery results, `lstat`/`readlink`,
`SKILL.md` parsing, folder hashing, `localeCompare`) are modelled as an
explicit environment `Env`; `verifySkills` is then a pure function of
that environment and of the collaborator results it consumes.
-/

namespace SkillsVerify

/-- Agent identifiers (`AgentType` in `types.ts` is a union of string
literals); modelled as strings. -/
abbrev AgentType := String

/-- What `lstat` observes at a path: a symbolic link, a directory, or
some other kind of entry. -/
inductive FsKind where
  | symlink
  | directory
  | other
deriving DecidableEq, Repr

/-- One recorded lock entry as consumed by `verifySkills`: the only field
it reads is `computedHash` (via the cast `lockEntry as { computedHash: string }`,
verify.ts line 202). `none` models an absent/undefined field. -/
structure LockEntry where
  computedHash : Option String
deriving DecidableEq, Repr

/-- One skill observed on disk (`InstalledSkill` from `installer.ts`),
restricted to the fields `verifySkills` reads. -/
structure InstalledSkill where
  name : String
  canonicalPath : String
  agents : List AgentType
deriving DecidableEq, Repr

/-- `VerifyStatus` (verify.ts line 26). -/
inductive VerifyStatus where
  | ok
  | modified
  | missing
  | untracked
  | invalid
deriving DecidableEq, Repr

/-- `BrokenSymlink` (verify.ts lines 28-31). -/
structure BrokenSymlink where
  agent : AgentType
  link : String
deriving DecidableEq, Repr

/-- `VerifyResult` (verify.ts lines 33-42); optional fields are `Option`. -/
structure VerifyResult where
  name : String
  path : String
  status : VerifyStatus
  expectedHash : Option String
  actualHash : Option String
  agents : List AgentType
  brokenSymlinks : List BrokenSymlink
  error : Option String
deriving DecidableEq, Repr

/-- The `counts` record of `VerifySummary` (verify.ts lines 47-54). -/
structure Counts where
  ok : Nat
  modified : Nat
  missing : Nat
  untracked : Nat
  invalid : Nat
  brokenSymlinks : Nat
deriving DecidableEq, Repr

/-- `VerifySummary` (verify.ts lines 44-55); `scope` is the string
`"project"` or `"global"`. -/
structure VerifySummary where
  scope : String
  results : List VerifyResult
  counts : Counts
deriving DecidableEq, Repr

/-- The environment: results of every external collaborator call and
filesystem observation that `verifySkills`/`checkSymlinkIntegrity` make.
`parseSkillMd` is the truthiness of the parse result (descriptor vs null);
`computeSkillFolderHash` either returns a fingerprint or throws (the
`error` side carries the thrown message); `lstatKind` is `none` when
`lstat` throws (path absent); `readlinkTarget` is the target recorded in a
symlink; `pathJoin`/`pathDirname`/`pathResolve` are the Node path library;
`localeCompare` is the string comparator used for the final sort. -/
structure Env where
  parseSkillMd : String → Bool
  computeSkillFolderHash : String → Except String String
  getAgentBaseDir : AgentType → Bool → String → String
  getCanonicalSkillsDir : Bool → String → String
  lstatKind : String → Option FsKind
  readlinkTarget : String → String
  pathJoin : String → String → String
  pathDirname : String → String
  pathResolve : String → String → String
  localeCompare : String → String → Int

/-- One iteration of the `for` loop of `checkSymlinkIntegrity`
(verify.ts lines 89-112): the finding pushed for this agent, if any. -/
def checkAgentSymlink (env : Env) (skillName canonicalPath : String)
    (isGlobal : Bool) (cwd : String) (agentType : AgentType) :
    Option BrokenSymlink :=
  let agentDir := env.getAgentBaseDir agentType isGlobal cwd
  let skillLink := env.pathJoin agentDir skillName
  -- Skip if this is the canonical directory (no symlink needed)
  if agentDir = env.getCanonicalSkillsDir isGlobal cwd then
    none
  else
    match env.lstatKind skillLink with
    | none => none  -- lstat threw: link does not exist, not reported
    | some FsKind.symlink =>
        let target := env.readlinkTarget skillLink
        let resolvedTarget := env.pathResolve (env.pathDirname skillLink) target
        if resolvedTarget ≠ canonicalPath then
          some { agent := agentType, link := skillLink }
        else
          none
    | some _ => none  -- directory (copy mode) or other kind: not reported

/-- `checkSymlinkIntegrity` (verify.ts lines 80-115): the loop pushes at
most one finding per agent, in order. -/
def checkSymlinkIntegrity (env : Env) (skillName canonicalPath : String)
    (agentsToCheck : List AgentType) (isGlobal : Bool) (cwd : String) :
    List BrokenSymlink :=
  agentsToCheck.filterMap (checkAgentSymlink env skillName canonicalPath isGlobal cwd)

/-- The `Map<string, InstalledSkill>` of verify.ts line 149, as an
association list in insertion order. -/
abbrev InstalledMap := List (String × InstalledSkill)

/-- `Map.get`. -/
def mapGet (m : InstalledMap) (k : String) : Option InstalledSkill :=
  (m.find? (fun p => p.1 == k)).map (fun p => p.2)

/-- `Map.set`: updates in place when the key is present, appends otherwise. -/
def mapSet (m : InstalledMap) (k : String) (v : InstalledSkill) : InstalledMap :=
  if m.any (fun p => p.1 == k) then
    m.map (fun p => if p.1 == k then (k, v) else p)
  else
    m ++ [(k, v)]

/-- `Map.delete`. -/
def mapDelete (m : InstalledMap) (k : String) : InstalledMap :=
  m.filter (fun p => p.1 != k)

/-- Building the installed map (verify.ts lines 149-152). -/
def buildInstalledMap (skills : List InstalledSkill) : InstalledMap :=
  skills.foldl (fun m s => mapSet m s.name s) []

/-- The agents to check (verify.ts lines 155-158): detected agents,
restricted to the filter when one is given. -/
def agentsToCheckOf (detectedAgents : List AgentType)
    (agentFilter : Option (List AgentType)) : List AgentType :=
  match agentFilter with
  | some f => detectedAgents.filter (fun a => f.contains a)
  | none => detectedAgents

/-- Mutable state of the two loops of `verifySkills`: the `results`
array, the `counts` record and the working copy of the installed map. -/
structure LoopState where
  results : List VerifyResult
  counts : Counts
  installedMap : InstalledMap
deriving DecidableEq, Repr

/-- JS truthiness of `expectedHash` (verify.ts line 207): `undefined`
and the empty string are falsy. -/
def strTruthy : Option String → Bool
  | none => false
  | some s => s != ""

/-- One iteration of the lock-file loop (verify.ts lines 161-240). -/
def lockStep (env : Env) (isGlobal : Bool) (cwd : String)
    (agentsToCheck : List AgentType) (st : LoopState)
    (kv : String × LockEntry) : LoopState :=
  let skillName := kv.1
  let lockEntry := kv.2
  match mapGet st.installedMap skillName with
  | none =>
      -- Skill in lock file but not on disk (lines 164-176)
      let r : VerifyResult :=
        { name := skillName, path := "",
          status := VerifyStatus.missing, expectedHash := none, actualHash := none,
          agents := [], brokenSymlinks := [],
          error := some "Skill in lock file but not found on disk" }
      { st with
        results := st.results ++ [r],
        counts := { st.counts with missing := st.counts.missing + 1 } }
  | some installed =>
      -- Remove from map so we can track untracked skills later (line 179)
      let installedMap := mapDelete st.installedMap skillName
      -- Check if SKILL.md is valid (lines 182-194)
      if env.parseSkillMd (env.pathJoin installed.canonicalPath "SKILL.md") = false then
        let r : VerifyResult :=
          { name := skillName, path := installed.canonicalPath,
            status := VerifyStatus.invalid, expectedHash := none, actualHash := none,
            agents := installed.agents, brokenSymlinks := [],
            error := some "SKILL.md is missing or invalid" }
        { results := st.results ++ [r],
          counts := { st.counts with invalid := st.counts.invalid + 1 },
          installedMap := installedMap }
      else
        -- Hash check (lines 196-220): status, expectedHash, actualHash, counts
        let hashStep : VerifyStatus × Option String × Option String × Counts :=
          if isGlobal = false then
            let expectedHash := lockEntry.computedHash
            match env.computeSkillFolderHash installed.canonicalPath with
            | Except.ok h =>
                if strTruthy expectedHash && (some h != expectedHash) then
                  (VerifyStatus.modified, expectedHash, some h,
                    { st.counts with modified := st.counts.modified + 1 })
                else
                  (VerifyStatus.ok, expectedHash, some h,
                    { st.counts with ok := st.counts.ok + 1 })
            | Except.error _ =>
                -- the thrown error is caught and discarded (lines 213-216)
                (VerifyStatus.invalid, expectedHash, none,
                  { st.counts with invalid := st.counts.invalid + 1 })
          else
            -- For global skills, only existence is checked (lines 217-220)
            (VerifyStatus.ok, none, none, { st.counts with ok := st.counts.ok + 1 })
        match hashStep with
        | (status, expectedHash, actualHash, counts) =>
          -- Check symlink integrity (lines 222-229) and push (lines 231-239)
          let brokenSymlinks := checkSymlinkIntegrity env skillName
            installed.canonicalPath agentsToCheck isGlobal cwd
          let r : VerifyResult :=
            { name := skillName,
              path := installed.canonicalPath, status := status,
              expectedHash := expectedHash, actualHash := actualHash,
              agents := installed.agents, brokenSymlinks := brokenSymlinks,
              error := none }
          { results := st.results ++ [r],
            counts := { counts with
              brokenSymlinks := counts.brokenSymlinks + brokenSymlinks.length },
            installedMap := installedMap }

/-- One iteration of the untracked loop (verify.ts lines 243-261). -/
def untrackedStep (env : Env) (isGlobal : Bool) (cwd : String)
    (agentsToCheck : List AgentType) (st : LoopState)
    (kv : String × InstalledSkill) : LoopState :=
  let skillName := kv.1
  let installed := kv.2
  let brokenSymlinks := checkSymlinkIntegrity env skillName
    installed.canonicalPath agentsToCheck isGlobal cwd
  let r : VerifyResult :=
    { name := skillName, path := installed.canonicalPath,
      status := VerifyStatus.untracked, expectedHash := none, actualHash := none,
      agents := installed.agents, brokenSymlinks := brokenSymlinks,
      error := some "Skill on disk but not in lock file" }
  { st with
    results := st.results ++ [r],
    counts := { st.counts with
      untracked := st.counts.untracked + 1,
      brokenSymlinks := st.counts.brokenSymlinks + brokenSymlinks.length } }

/-- The two loops of `verifySkills` (lines 127-261): the lock-file loop
followed by the untracked loop over what remains in the installed map. -/
def verifyLoopState (env : Env) (isGlobal : Bool) (cwd : String)
    (lockedSkills : List (String × LockEntry))
    (installedSkills : List InstalledSkill)
    (agentsToCheck : List AgentType) : LoopState :=
  let st0 : LoopState :=
    { results := [], counts := ⟨0, 0, 0, 0, 0, 0⟩,
      installedMap := buildInstalledMap installedSkills }
  let st1 := lockedSkills.foldl (lockStep env isGlobal cwd agentsToCheck) st0
  st1.installedMap.foldl (untrackedStep env isGlobal cwd agentsToCheck) st1

/-- The comparator of the final sort (verify.ts line 264):
`a.name.localeCompare(b.name)` non-positive. -/
def resultLE (env : Env) (a b : VerifyResult) : Bool :=
  decide (env.localeCompare a.name b.name ≤ 0)

/-- `verifySkills` (verify.ts lines 117-267). Its arguments after `env`
are the scope flag and `cwd`, and the results of the collaborator calls
it makes: `lockFile.skills` in iteration order (`Object.entries`, so the
keys are distinct), `listInstalledSkills`, `detectInstalledAgents`, and
the agent filter. -/
def verifySkills (env : Env) (isGlobal : Bool) (cwd : String)
    (lockedSkills : List (String × LockEntry))
    (installedSkills : List InstalledSkill)
    (detectedAgents : List AgentType)
    (agentFilter : Option (List AgentType)) : VerifySummary :=
  let st := verifyLoopState env isGlobal cwd lockedSkills installedSkills
    (agentsToCheckOf detectedAgents agentFilter)
  { scope := if isGlobal then "global" else "project",
    results := st.results.mergeSort (resultLE env),
    counts := st.counts }

/-- Tally of results carrying a given status. -/
def statusCount (rs : List VerifyResult) (s : VerifyStatus) : Nat :=
  rs.countP (fun r => r.status == s)

/-- Total number of broken-symlink findings across all results. -/
def totalBroken (rs : List VerifyResult) : Nat :=
  (rs.map (fun r => r.brokenSymlinks.length)).sum

/-- The status/expectedHash/actualHash triple computed by the hash check
of the lock-file loop (verify.ts lines 196-220). -/
def lockHashPart (env : Env) (isGlobal : Bool) (installed : InstalledSkill)
    (lockEntry : LockEntry) : VerifyStatus × Option String × Option String :=
  if isGlobal = false then
    let expectedHash := lockEntry.computedHash
    match env.computeSkillFolderHash installed.canonicalPath with
    | Except.ok h =>
        if strTruthy expectedHash && (some h != expectedHash) then
          (VerifyStatus.modified, expectedHash, some h)
        else
          (VerifyStatus.ok, expectedHash, some h)
    | Except.error _ =>
        (VerifyStatus.invalid, expectedHash, none)
  else
    (VerifyStatus.ok, none, none)

/-- The result pushed by one iteration of the lock-file loop, as a
function of the installed-map lookup. -/
def lockResult (env : Env) (isGlobal : Bool) (cwd : String)
    (agentsToCheck : List AgentType) (installedQ : Option InstalledSkill)
    (skillName : String) (lockEntry : LockEntry) : VerifyResult :=
  match installedQ with
  | none =>
      { name := skillName, path := "",
        status := VerifyStatus.missing, expectedHash := none, actualHash := none,
        agents := [], brokenSymlinks := [],
        error := some "Skill in lock file but not found on disk" }
  | some installed =>
      if env.parseSkillMd (env.pathJoin installed.canonicalPath "SKILL.md") = false then
        { name := skillName, path := installed.canonicalPath,
          status := VerifyStatus.invalid, expectedHash := none, actualHash := none,
          agents := installed.agents, brokenSymlinks := [],
          error := some "SKILL.md is missing or invalid" }
      else
        let hashPart := lockHashPart env isGlobal installed lockEntry
        { name := skillName, path := installed.canonicalPath,
          status := hashPart.1, expectedHash := hashPart.2.1,
          actualHash := hashPart.2.2, agents := installed.agents,
          brokenSymlinks := checkSymlinkIntegrity env skillName
            installed.canonicalPath agentsToCheck isGlobal cwd,
          error := none }

/-- The result pushed by one iteration of the untracked loop. -/
def untrackedResult (env : Env) (isGlobal : Bool) (cwd : String)
    (agentsToCheck : List AgentType) (kv : String × InstalledSkill) : VerifyResult :=
  { name := kv.1, path := kv.2.canonicalPath,
    status := VerifyStatus.untracked, expectedHash := none, actualHash := none,
    agents := kv.2.agents,
    brokenSymlinks := checkSymlinkIntegrity env kv.1
      kv.2.canonicalPath agentsToCheck isGlobal cwd,
    error := some "Skill on disk but not in lock file" }

/-- How the loops update `counts` when pushing a result: one increment
for the result's status, plus its broken-symlink findings. -/
def bumpCounts (c : Counts) (r : VerifyResult) : Counts :=
  let c1 :=
    match r.status with
    | VerifyStatus.ok => { c with ok := c.ok + 1 }
    | VerifyStatus.modified => { c with modified := c.modified + 1 }
    | VerifyStatus.missing => { c with missing := c.missing + 1 }
    | VerifyStatus.untracked => { c with untracked := c.untracked + 1 }
    | VerifyStatus.invalid => { c with invalid := c.invalid + 1 }
  { c1 with brokenSymlinks := c1.brokenSymlinks + r.brokenSymlinks.length }

/-- A lawful locale comparator for concrete runs: compare by length. -/
def lcLen (a b : String) : Int := (a.length : Int) - (b.length : Int)

/-- A concrete environment for concrete runs: skill folders under `/s`,
canonical store `/w/.agents/skills`; folder `/s/b` has an unparseable
SKILL.md, hashing `/s/t` throws `"boom"`, every other folder hashes to
`"h2"`; agent `B`'s base directory is the canonical store itself, agent
`A` has a symlink `/w/A/x` pointing at `/other/x`. -/
def envW : Env :=
  { parseSkillMd := fun p => p != "/s/b/SKILL.md",
    computeSkillFolderHash := fun p =>
      if p = "/s/t" then Except.error "boom" else Except.ok "h2",
    getAgentBaseDir := fun a _ _ => if a = "B" then "/w/.agents/skills" else "/w/" ++ a,
    getCanonicalSkillsDir := fun _ _ => "/w/.agents/skills",
    lstatKind := fun p => if p = "/w/A/x" then some FsKind.symlink else none,
    readlinkTarget := fun _ => "/other/x",
    pathJoin := fun a b => a ++ "/" ++ b,
    pathDirname := fun p => p,
    pathResolve := fun _ t => t,
    localeCompare := lcLen }

/-- The invariant of the two loops: the running `counts` record tallies
the running `results` array. -/
def countsAligned (st : LoopState) : Prop :=
  st.counts.ok = statusCount st.results VerifyStatus.ok ∧
  st.counts.modified = statusCount st.results VerifyStatus.modified ∧
  st.counts.missing = statusCount st.results VerifyStatus.missing ∧
  st.counts.untracked = statusCount st.results VerifyStatus.untracked ∧
  st.counts.invalid = statusCount st.results VerifyStatus.invalid ∧
  st.counts.brokenSymlinks = totalBroken st.results

/-- The per-result symlink property established by both loops. -/
def symlinkFindingsSpec (env : Env) (isGlobal : Bool) (cwd : String)
    (ac : List AgentType) (r : VerifyResult) : Prop :=
  ((r.status = VerifyStatus.missing ∨ r.error = some "SKILL.md is missing or invalid") →
    r.brokenSymlinks = []) ∧
  (¬(r.status = VerifyStatus.missing ∨ r.error = some "SKILL.md is missing or invalid") →
    r.brokenSymlinks = checkSymlinkIntegrity env r.name r.path ac isGlobal cwd)

theorem mapDelete_of_get_none {m : InstalledMap} {k : String}
    (h : mapGet m k = none) : mapDelete m k = m := by
  unfold mapGet at h
  rw [Option.map_eq_none', List.find?_eq_none] at h
  unfold mapDelete
  apply List.filter_eq_self.mpr
  intro p hp
  have := h p hp
  simp only [bne_iff_ne, ne_eq]
  intro he
  exact this (by simp [he])

/-- `lockStep` in uniform shape: push `lockResult`, bump the counts,
delete the key. -/
theorem lockStep_eq (env : Env) (isGlobal : Bool) (cwd : String)
    (ac : List AgentType) (st : LoopState) (kv : String × LockEntry) :
    lockStep env isGlobal cwd ac st kv =
      { results := st.results ++
          [lockResult env isGlobal cwd ac (mapGet st.installedMap kv.1) kv.1 kv.2],
        counts := bumpCounts st.counts
          (lockResult env isGlobal cwd ac (mapGet st.installedMap kv.1) kv.1 kv.2),
        installedMap := mapDelete st.installedMap kv.1 } := by
  obtain ⟨results, counts, installedMap⟩ := st
  obtain ⟨skillName, lockEntry⟩ := kv
  cases hg : mapGet installedMap skillName with
  | none =>
      have hd := mapDelete_of_get_none hg
      cases counts
      simp [lockStep, lockResult, lockHashPart, bumpCounts, hg, hd]
  | some installed =>
      by_cases hp : env.parseSkillMd (env.pathJoin installed.canonicalPath "SKILL.md") = false
      · cases counts
        simp [lockStep, lockResult, lockHashPart, bumpCounts, hg, hp]
      · cases g : isGlobal with
        | true =>
            cases counts
            simp [lockStep, lockResult, lockHashPart, bumpCounts, hg, hp, g]
        | false =>
            cases hh : env.computeSkillFolderHash installed.canonicalPath with
            | ok h =>
                by_cases hm :
                  (strTruthy lockEntry.computedHash && (some h != lockEntry.computedHash)) = true
                · cases counts
                  simp [lockStep, lockResult, lockHashPart, bumpCounts, hg, hp, hh, hm]
                · cases counts
                  simp [lockStep, lockResult, lockHashPart, bumpCounts, hg, hp, hh, hm]
            | error msg =>
                cases counts
                simp [lockStep, lockResult, lockHashPart, bumpCounts, hg, hp, hh]

/-- `untrackedStep` in uniform shape. -/
theorem untrackedStep_eq (env : Env) (isGlobal : Bool) (cwd : String)
    (ac : List AgentType) (st : LoopState) (kv : String × InstalledSkill) :
    untrackedStep env isGlobal cwd ac st kv =
      { results := st.results ++ [untrackedResult env isGlobal cwd ac kv],
        counts := bumpCounts st.counts (untrackedResult env isGlobal cwd ac kv),
        installedMap := st.installedMap } := by
  obtain ⟨results, counts, installedMap⟩ := st
  cases counts
  simp [untrackedStep, untrackedResult, bumpCounts]



theorem find?_filter_ne {m : InstalledMap} {k k' : String} (hne : k ≠ k') :
    (m.filter (fun p => p.1 != k)).find? (fun p => p.1 == k')
      = m.find? (fun p => p.1 == k') := by
  rw [List.find?_filter]
  congr 1
  funext a
  by_cases h2 : a.1 = k'
  · simp [h2, Ne.symm hne]
  · simp [h2]

theorem mapGet_mapDelete_ne {m : InstalledMap} {k k' : String} (hne : k ≠ k') :
    mapGet (mapDelete m k) k' = mapGet m k' := by
  unfold mapGet mapDelete
  rw [find?_filter_ne hne]

theorem anyKey_mapSet_iff {m : InstalledMap} {k : String} :
    m.any (fun p => p.1 == k) = true ↔ k ∈ m.map Prod.fst := by
  rw [List.any_eq_true]
  constructor
  · rintro ⟨p, hp, he⟩
    exact List.mem_map.mpr ⟨p, hp, by simpa using he⟩
  · rintro h
    obtain ⟨p, hp, he⟩ := List.mem_map.mp h
    exact ⟨p, hp, by simp [he]⟩

theorem keys_mapSet_of_mem {m : InstalledMap} {k : String} {v : InstalledSkill}
    (h : m.any (fun p => p.1 == k) = true) :
    (mapSet m k v).map Prod.fst = m.map Prod.fst := by
  unfold mapSet
  rw [if_pos h, List.map_map]
  apply List.map_congr_left
  intro p _
  by_cases hc : p.1 = k
  · simp [hc]
  · simp [hc]

theorem keys_mapSet_of_not_mem {m : InstalledMap} {k : String} {v : InstalledSkill}
    (h : m.any (fun p => p.1 == k) = false) :
    (mapSet m k v).map Prod.fst = m.map Prod.fst ++ [k] := by
  unfold mapSet
  rw [if_neg (by simp [h]), List.map_append]
  rfl

theorem nodup_keys_mapSet {m : InstalledMap} {k : String} {v : InstalledSkill}
    (h : (m.map Prod.fst).Nodup) : ((mapSet m k v).map Prod.fst).Nodup := by
  cases ha : m.any (fun p => p.1 == k) with
  | true => rw [keys_mapSet_of_mem ha]; exact h
  | false =>
      rw [keys_mapSet_of_not_mem ha]
      have hk : k ∉ m.map Prod.fst := by
        intro hmem
        rw [← anyKey_mapSet_iff] at hmem
        rw [ha] at hmem
        cases hmem
      simp [List.nodup_append, h, hk]

theorem mem_keys_mapSet {m : InstalledMap} {k k' : String} {v : InstalledSkill} :
    k' ∈ (mapSet m k v).map Prod.fst ↔ k' ∈ m.map Prod.fst ∨ k' = k := by
  cases ha : m.any (fun p => p.1 == k) with
  | true =>
      rw [keys_mapSet_of_mem ha]
      constructor
      · exact Or.inl
      · rintro (h | rfl)
        · exact h
        · exact anyKey_mapSet_iff.mp ha
  | false =>
      rw [keys_mapSet_of_not_mem ha]
      simp

theorem nodup_keys_buildFold :
    ∀ (l : List InstalledSkill) (m : InstalledMap), (m.map Prod.fst).Nodup →
      (((l.foldl (fun m s => mapSet m s.name s) m)).map Prod.fst).Nodup := by
  intro l
  induction l with
  | nil => intro m h; exact h
  | cons s t ih =>
      intro m h
      exact ih (mapSet m s.name s) (nodup_keys_mapSet h)

theorem nodup_keys_buildInstalledMap (l : List InstalledSkill) :
    ((buildInstalledMap l).map Prod.fst).Nodup :=
  nodup_keys_buildFold l [] List.nodup_nil

theorem mem_keys_buildFold :
    ∀ (l : List InstalledSkill) (m : InstalledMap) (k : String),
      (k ∈ (l.foldl (fun m s => mapSet m s.name s) m).map Prod.fst
        ↔ k ∈ m.map Prod.fst ∨ k ∈ l.map InstalledSkill.name) := by
  intro l
  induction l with
  | nil => intro m k; simp
  | cons s t ih =>
      intro m k
      simp only [List.foldl_cons, ih, mem_keys_mapSet, List.map_cons, List.mem_cons]
      tauto

theorem mem_keys_buildInstalledMap {l : List InstalledSkill} {k : String} :
    k ∈ (buildInstalledMap l).map Prod.fst ↔ k ∈ l.map InstalledSkill.name := by
  rw [buildInstalledMap, mem_keys_buildFold]
  simp

theorem lockFold_installedMap (env : Env) (isGlobal : Bool) (cwd : String)
    (ac : List AgentType) :
    ∀ (entries : List (String × LockEntry)) (st : LoopState),
      (entries.foldl (lockStep env isGlobal cwd ac) st).installedMap
        = (entries.map Prod.fst).foldl mapDelete st.installedMap := by
  intro entries
  induction entries with
  | nil => intro st; rfl
  | cons kv t ih =>
      intro st
      simp only [List.foldl_cons, List.map_cons]
      rw [ih, lockStep_eq]

theorem lockFold_results (env : Env) (isGlobal : Bool) (cwd : String)
    (ac : List AgentType) :
    ∀ (entries : List (String × LockEntry)) (st : LoopState),
      (entries.map Prod.fst).Nodup →
      (entries.foldl (lockStep env isGlobal cwd ac) st).results
        = st.results ++ entries.map (fun kv =>
            lockResult env isGlobal cwd ac (mapGet st.installedMap kv.1) kv.1 kv.2) := by
  intro entries
  induction entries with
  | nil => intro st _; simp
  | cons kv t ih =>
      intro st hnd
      simp only [List.map_cons, List.nodup_cons] at hnd
      obtain ⟨hkv, hnd⟩ := hnd
      simp only [List.foldl_cons, List.map_cons]
      rw [ih _ hnd, lockStep_eq]
      have hmap : t.map (fun p =>
            lockResult env isGlobal cwd ac
              (mapGet (mapDelete st.installedMap kv.1) p.1) p.1 p.2)
          = t.map (fun p =>
            lockResult env isGlobal cwd ac (mapGet st.installedMap p.1) p.1 p.2) := by
        apply List.map_congr_left
        intro p hp
        have hne : kv.1 ≠ p.1 := by
          intro he
          exact hkv (he ▸ List.mem_map.mpr ⟨p, hp, rfl⟩)
        rw [mapGet_mapDelete_ne hne]
      simp [hmap]

theorem untrackedFold_results (env : Env) (isGlobal : Bool) (cwd : String)
    (ac : List AgentType) :
    ∀ (l : List (String × InstalledSkill)) (st : LoopState),
      (l.foldl (untrackedStep env isGlobal cwd ac) st).results
        = st.results ++ l.map (untrackedResult env isGlobal cwd ac) := by
  intro l
  induction l with
  | nil => intro st; simp
  | cons kv t ih =>
      intro st
      simp only [List.foldl_cons, List.map_cons]
      rw [ih, untrackedStep_eq]
      simp


theorem statusCount_append (rs rt : List VerifyResult) (s : VerifyStatus) :
    statusCount (rs ++ rt) s = statusCount rs s + statusCount rt s := by
  unfold statusCount
  rw [List.countP_append]

theorem totalBroken_append (rs rt : List VerifyResult) :
    totalBroken (rs ++ rt) = totalBroken rs + totalBroken rt := by
  unfold totalBroken
  rw [List.map_append, List.sum_append]

theorem bumpCounts_aligned {st : LoopState} (r : VerifyResult) (m : InstalledMap)
    (h : countsAligned st) :
    countsAligned ⟨st.results ++ [r], bumpCounts st.counts r, m⟩ := by
  obtain ⟨h1, h2, h3, h4, h5, h6⟩ := h
  unfold countsAligned
  simp only [statusCount_append, totalBroken_append]
  cases hs : r.status <;>
    simp [bumpCounts, hs, statusCount, totalBroken, List.countP_cons, h1, h2, h3, h4, h5, h6]

theorem lockFold_aligned (env : Env) (isGlobal : Bool) (cwd : String)
    (ac : List AgentType) :
    ∀ (entries : List (String × LockEntry)) (st : LoopState), countsAligned st →
      countsAligned (entries.foldl (lockStep env isGlobal cwd ac) st) := by
  intro entries
  induction entries with
  | nil => intro st h; exact h
  | cons kv t ih =>
      intro st h
      simp only [List.foldl_cons]
      apply ih
      rw [lockStep_eq]
      exact bumpCounts_aligned _ _ h

theorem untrackedFold_aligned (env : Env) (isGlobal : Bool) (cwd : String)
    (ac : List AgentType) :
    ∀ (l : List (String × InstalledSkill)) (st : LoopState), countsAligned st →
      countsAligned (l.foldl (untrackedStep env isGlobal cwd ac) st) := by
  intro l
  induction l with
  | nil => intro st h; exact h
  | cons kv t ih =>
      intro st h
      simp only [List.foldl_cons]
      apply ih
      rw [untrackedStep_eq]
      exact bumpCounts_aligned _ _ h

theorem verifyLoopState_aligned (env : Env) (isGlobal : Bool) (cwd : String)
    (lockedSkills : List (String × LockEntry)) (installedSkills : List InstalledSkill)
    (ac : List AgentType) :
    countsAligned (verifyLoopState env isGlobal cwd lockedSkills installedSkills ac) := by
  unfold verifyLoopState
  apply untrackedFold_aligned
  apply lockFold_aligned
  unfold countsAligned statusCount totalBroken
  simp

theorem statusCount_five_sum (rs : List VerifyResult) :
    statusCount rs VerifyStatus.ok + statusCount rs VerifyStatus.modified
      + statusCount rs VerifyStatus.missing + statusCount rs VerifyStatus.untracked
      + statusCount rs VerifyStatus.invalid = rs.length := by
  induction rs with
  | nil => simp [statusCount]
  | cons r t ih =>
      cases hs : r.status <;>
        simp [statusCount, List.countP_cons, hs] at ih ⊢ <;> omega

theorem statusCount_perm {rs rt : List VerifyResult} (h : rs.Perm rt)
    (s : VerifyStatus) : statusCount rs s = statusCount rt s :=
  h.countP_eq _

theorem totalBroken_perm {rs rt : List VerifyResult} (h : rs.Perm rt) :
    totalBroken rs = totalBroken rt := by
  unfold totalBroken
  exact (h.map (fun r => r.brokenSymlinks.length)).sum_eq

theorem checkAgentSymlink_eq_some_iff {env : Env} {skillName canonicalPath : String}
    {isGlobal : Bool} {cwd : String} {a : AgentType} {b : BrokenSymlink} :
    checkAgentSymlink env skillName canonicalPath isGlobal cwd a = some b ↔
      (b.agent = a ∧
       env.getAgentBaseDir a isGlobal cwd ≠ env.getCanonicalSkillsDir isGlobal cwd ∧
       b.link = env.pathJoin (env.getAgentBaseDir a isGlobal cwd) skillName ∧
       env.lstatKind b.link = some FsKind.symlink ∧
       env.pathResolve (env.pathDirname b.link) (env.readlinkTarget b.link)
         ≠ canonicalPath) := by
  unfold checkAgentSymlink
  by_cases hc : env.getAgentBaseDir a isGlobal cwd = env.getCanonicalSkillsDir isGlobal cwd
  · simp [hc]
  · simp only [hc, if_false, ne_eq, not_false_eq_true, true_and]
    cases hl : env.lstatKind (env.pathJoin (env.getAgentBaseDir a isGlobal cwd) skillName) with
    | none =>
        apply iff_of_false (by simp)
        rintro ⟨rfl, hlink, hstat, _⟩
        rw [hlink, hl] at hstat
        exact Option.noConfusion hstat
    | some kind =>
        cases kind with
        | symlink =>
            by_cases hr : env.pathResolve
                (env.pathDirname (env.pathJoin (env.getAgentBaseDir a isGlobal cwd) skillName))
                (env.readlinkTarget (env.pathJoin (env.getAgentBaseDir a isGlobal cwd) skillName))
              = canonicalPath
            · rw [if_neg (by simp [hr])]
              apply iff_of_false (by simp)
              rintro ⟨rfl, hlink, _, hres⟩
              rw [hlink] at hres
              exact hres hr
            · rw [if_pos (by simp [hr])]
              rw [Option.some_inj]
              constructor
              · rintro rfl
                exact ⟨rfl, rfl, hl, hr⟩
              · rintro ⟨ha, hlink, _, _⟩
                cases b
                simp only at ha hlink
                simp [ha, hlink]
        | directory =>
            apply iff_of_false (by simp)
            rintro ⟨rfl, hlink, hstat, _⟩
            rw [hlink, hl] at hstat
            simp at hstat
        | other =>
            apply iff_of_false (by simp)
            rintro ⟨rfl, hlink, hstat, _⟩
            rw [hlink, hl] at hstat
            simp at hstat

/-- C7: `checkSymlinkIntegrity` reports exactly the non-skipped agents
whose expected link path holds a symlink resolving away from the
canonical path; absent paths and plain directories are never reported. -/
theorem checkSymlinkIntegrity_mem_iff (env : Env) (skillName canonicalPath : String)
    (agentsToCheck : List AgentType) (isGlobal : Bool) (cwd : String) (b : BrokenSymlink) :
    b ∈ checkSymlinkIntegrity env skillName canonicalPath agentsToCheck isGlobal cwd ↔
      (b.agent ∈ agentsToCheck ∧
       env.getAgentBaseDir b.agent isGlobal cwd ≠ env.getCanonicalSkillsDir isGlobal cwd ∧
       b.link = env.pathJoin (env.getAgentBaseDir b.agent isGlobal cwd) skillName ∧
       env.lstatKind b.link = some FsKind.symlink ∧
       env.pathResolve (env.pathDirname b.link) (env.readlinkTarget b.link)
         ≠ canonicalPath) := by
  unfold checkSymlinkIntegrity
  rw [List.mem_filterMap]
  constructor
  · rintro ⟨a, ha, he⟩
    obtain ⟨hag, h2, h3, h4, h5⟩ := checkAgentSymlink_eq_some_iff.mp he
    subst hag
    exact ⟨ha, h2, h3, h4, h5⟩
  · rintro ⟨h1, h2, h3, h4, h5⟩
    exact ⟨b.agent, h1, checkAgentSymlink_eq_some_iff.mpr ⟨rfl, h2, h3, h4, h5⟩⟩

theorem filterMap_filter_ne {α β : Type} [DecidableEq α] (f : α → Option β)
    (a : α) (hf : f a = none) :
    ∀ l : List α, l.filterMap f = (l.filter (fun x => x != a)).filterMap f := by
  intro l
  induction l with
  | nil => rfl
  | cons y t ih =>
      by_cases hy : y = a
      · subst hy
        simp [List.filter_cons, List.filterMap_cons, hf, ih]
      · simp [List.filter_cons, List.filterMap_cons, hy, ih]

/-- C6: an agent whose per-scope base directory equals the canonical
store directory is skipped entirely by `checkSymlinkIntegrity`: no
finding names it, and removing it from the agent list leaves the output
unchanged, whatever is on disk at its link path. -/
theorem checkSymlinkIntegrity_skips_canonical (env : Env)
    (skillName canonicalPath : String) (agentsToCheck : List AgentType)
    (isGlobal : Bool) (cwd : String) (a : AgentType)
    (h : env.getAgentBaseDir a isGlobal cwd = env.getCanonicalSkillsDir isGlobal cwd) :
    (∀ b ∈ checkSymlinkIntegrity env skillName canonicalPath agentsToCheck isGlobal cwd,
      b.agent ≠ a) ∧
    checkSymlinkIntegrity env skillName canonicalPath agentsToCheck isGlobal cwd
      = checkSymlinkIntegrity env skillName canonicalPath
          (agentsToCheck.filter (fun x => x != a)) isGlobal cwd := by
  have hnone : checkAgentSymlink env skillName canonicalPath isGlobal cwd a = none := by
    unfold checkAgentSymlink
    rw [if_pos h]
  constructor
  · intro b hb
    obtain ⟨x, _, he⟩ := List.mem_filterMap.mp hb
    obtain ⟨hag, _⟩ := checkAgentSymlink_eq_some_iff.mp he
    intro hba
    rw [hba] at hag
    rw [hag] at hnone
    rw [hnone] at he
    exact Option.noConfusion he
  · exact filterMap_filter_ne _ a hnone agentsToCheck

/-- C4: in every summary, each of the five status counters equals the
tally of results with that status, the five counters sum to the number
of results, and `brokenSymlinks` is the total number of broken-symlink
findings across all results. -/
theorem verifySkills_counts_invariant (env : Env) (isGlobal : Bool) (cwd : String)
    (lockedSkills : List (String × LockEntry)) (installedSkills : List InstalledSkill)
    (detectedAgents : List AgentType) (agentFilter : Option (List AgentType)) :
    let S := verifySkills env isGlobal cwd lockedSkills installedSkills
      detectedAgents agentFilter
    S.counts.ok = statusCount S.results VerifyStatus.ok ∧
    S.counts.modified = statusCount S.results VerifyStatus.modified ∧
    S.counts.missing = statusCount S.results VerifyStatus.missing ∧
    S.counts.untracked = statusCount S.results VerifyStatus.untracked ∧
    S.counts.invalid = statusCount S.results VerifyStatus.invalid ∧
    S.counts.brokenSymlinks = totalBroken S.results ∧
    S.counts.ok + S.counts.modified + S.counts.missing + S.counts.untracked
      + S.counts.invalid = S.results.length := by
  intro S
  have ha := verifyLoopState_aligned env isGlobal cwd lockedSkills installedSkills
    (agentsToCheckOf detectedAgents agentFilter)
  obtain ⟨h1, h2, h3, h4, h5, h6⟩ := ha
  have hperm : S.results.Perm
      (verifyLoopState env isGlobal cwd lockedSkills installedSkills
        (agentsToCheckOf detectedAgents agentFilter)).results :=
    List.mergeSort_perm _ _
  have hc : S.counts = (verifyLoopState env isGlobal cwd lockedSkills installedSkills
      (agentsToCheckOf detectedAgents agentFilter)).counts := rfl
  have hsc : ∀ s, statusCount S.results s
      = statusCount (verifyLoopState env isGlobal cwd lockedSkills installedSkills
        (agentsToCheckOf detectedAgents agentFilter)).results s :=
    fun s => statusCount_perm hperm s
  have htb : totalBroken S.results
      = totalBroken (verifyLoopState env isGlobal cwd lockedSkills installedSkills
        (agentsToCheckOf detectedAgents agentFilter)).results :=
    totalBroken_perm hperm
  have hlen : S.results.length
      = (verifyLoopState env isGlobal cwd lockedSkills installedSkills
        (agentsToCheckOf detectedAgents agentFilter)).results.length :=
    hperm.length_eq
  refine ⟨?_, ?_, ?_, ?_, ?_, ?_, ?_⟩
  · rw [hsc, hc, h1]
  · rw [hsc, hc, h2]
  · rw [hsc, hc, h3]
  · rw [hsc, hc, h4]
  · rw [hsc, hc, h5]
  · rw [htb, hc, h6]
  · rw [hc, h1, h2, h3, h4, h5]
    have := statusCount_five_sum (verifyLoopState env isGlobal cwd lockedSkills
      installedSkills (agentsToCheckOf detectedAgents agentFilter)).results
    rw [this, hlen]

theorem lockFold_results_mem (env : Env) (isGlobal : Bool) (cwd : String)
    (ac : List AgentType) :
    ∀ (entries : List (String × LockEntry)) (st : LoopState) (r : VerifyResult),
      r ∈ (entries.foldl (lockStep env isGlobal cwd ac) st).results →
      r ∈ st.results ∨ ∃ iq n e, r = lockResult env isGlobal cwd ac iq n e := by
  intro entries
  induction entries with
  | nil => intro st r h; exact Or.inl h
  | cons kv t ih =>
      intro st r h
      rcases ih (lockStep env isGlobal cwd ac st kv) r h with h1 | h1
      · rw [lockStep_eq] at h1
        simp only [List.mem_append, List.mem_singleton] at h1
        rcases h1 with h2 | h2
        · exact Or.inl h2
        · exact Or.inr ⟨_, _, _, h2⟩
      · exact Or.inr h1

theorem untrackedFold_results_mem (env : Env) (isGlobal : Bool) (cwd : String)
    (ac : List AgentType) :
    ∀ (l : List (String × InstalledSkill)) (st : LoopState) (r : VerifyResult),
      r ∈ (l.foldl (untrackedStep env isGlobal cwd ac) st).results →
      r ∈ st.results ∨ ∃ kv, r = untrackedResult env isGlobal cwd ac kv := by
  intro l
  induction l with
  | nil => intro st r h; exact Or.inl h
  | cons kv t ih =>
      intro st r h
      rcases ih (untrackedStep env isGlobal cwd ac st kv) r h with h1 | h1
      · rw [untrackedStep_eq] at h1
        simp only [List.mem_append, List.mem_singleton] at h1
        rcases h1 with h2 | h2
        · exact Or.inl h2
        · exact Or.inr ⟨_, h2⟩
      · exact Or.inr h1


theorem lockResult_invalidMd (env : Env) (isGlobal : Bool) (cwd : String)
    (ac : List AgentType) (n : String) (e : LockEntry) (installed : InstalledSkill)
    (hp : env.parseSkillMd (env.pathJoin installed.canonicalPath "SKILL.md") = false) :
    lockResult env isGlobal cwd ac (some installed) n e =
      { name := n, path := installed.canonicalPath,
        status := VerifyStatus.invalid, expectedHash := none, actualHash := none,
        agents := installed.agents, brokenSymlinks := [],
        error := some "SKILL.md is missing or invalid" } := by
  simp only [lockResult]
  rw [if_pos hp]

theorem lockResult_main (env : Env) (isGlobal : Bool) (cwd : String)
    (ac : List AgentType) (n : String) (e : LockEntry) (installed : InstalledSkill)
    (hp : ¬env.parseSkillMd (env.pathJoin installed.canonicalPath "SKILL.md") = false) :
    lockResult env isGlobal cwd ac (some installed) n e =
      { name := n, path := installed.canonicalPath,
        status := (lockHashPart env isGlobal installed e).1,
        expectedHash := (lockHashPart env isGlobal installed e).2.1,
        actualHash := (lockHashPart env isGlobal installed e).2.2,
        agents := installed.agents,
        brokenSymlinks := checkSymlinkIntegrity env n
          installed.canonicalPath ac isGlobal cwd,
        error := none } := by
  simp only [lockResult]
  rw [if_neg hp]

theorem lockHashPart_global (env : Env) (installed : InstalledSkill) (e : LockEntry) :
    lockHashPart env true installed e = (VerifyStatus.ok, none, none) := rfl

theorem lockHashPart_throw (env : Env) (installed : InstalledSkill) (e : LockEntry)
    (msg : String)
    (hh : env.computeSkillFolderHash installed.canonicalPath = Except.error msg) :
    lockHashPart env false installed e
      = (VerifyStatus.invalid, e.computedHash, none) := by
  simp only [lockHashPart, hh]
  simp

theorem lockHashPart_mismatch (env : Env) (installed : InstalledSkill) (e : LockEntry)
    (h : String) (hh : env.computeSkillFolderHash installed.canonicalPath = Except.ok h)
    (hm : (strTruthy e.computedHash && (some h != e.computedHash)) = true) :
    lockHashPart env false installed e
      = (VerifyStatus.modified, e.computedHash, some h) := by
  simp only [lockHashPart, hh]
  simp [hm]

theorem lockHashPart_nomismatch (env : Env) (installed : InstalledSkill) (e : LockEntry)
    (h : String) (hh : env.computeSkillFolderHash installed.canonicalPath = Except.ok h)
    (hm : (strTruthy e.computedHash && (some h != e.computedHash)) = false) :
    lockHashPart env false installed e
      = (VerifyStatus.ok, e.computedHash, some h) := by
  simp only [lockHashPart, hh]
  simp [hm]

theorem lockHashPart_fst_ne_missing (env : Env) (isGlobal : Bool)
    (installed : InstalledSkill) (e : LockEntry) :
    (lockHashPart env isGlobal installed e).1 ≠ VerifyStatus.missing := by
  cases isGlobal with
  | true => rw [lockHashPart_global]; simp
  | false =>
      cases hh : env.computeSkillFolderHash installed.canonicalPath with
      | ok h =>
          cases hm : (strTruthy e.computedHash && (some h != e.computedHash)) with
          | true => rw [lockHashPart_mismatch env installed e h hh hm]; simp
          | false => rw [lockHashPart_nomismatch env installed e h hh hm]; simp
      | error msg => rw [lockHashPart_throw env installed e msg hh]; simp

theorem lockResult_symlinkFindings (env : Env) (isGlobal : Bool) (cwd : String)
    (ac : List AgentType) (iq : Option InstalledSkill) (n : String) (e : LockEntry) :
    symlinkFindingsSpec env isGlobal cwd ac (lockResult env isGlobal cwd ac iq n e) := by
  cases iq with
  | none =>
      constructor
      · intro _; rfl
      · intro h; exact absurd (Or.inl rfl) h
  | some installed =>
      by_cases hp : env.parseSkillMd (env.pathJoin installed.canonicalPath "SKILL.md") = false
      · rw [lockResult_invalidMd env isGlobal cwd ac n e installed hp]
        constructor
        · intro _; rfl
        · intro h; exact absurd (Or.inr rfl) h
      · rw [lockResult_main env isGlobal cwd ac n e installed hp]
        constructor
        · rintro (hs | he)
          · exact absurd hs (lockHashPart_fst_ne_missing env isGlobal installed e)
          · exact absurd he (by simp)
        · intro _; rfl

theorem untrackedResult_symlinkFindings (env : Env) (isGlobal : Bool) (cwd : String)
    (ac : List AgentType) (kv : String × InstalledSkill) :
    symlinkFindingsSpec env isGlobal cwd ac (untrackedResult env isGlobal cwd ac kv) := by
  unfold symlinkFindingsSpec untrackedResult
  constructor
  · rintro (hs | he)
    · exact absurd hs (by simp)
    · exact absurd he (by simp)
  · intro _; rfl

theorem lockResult_name (env : Env) (isGlobal : Bool) (cwd : String)
    (ac : List AgentType) (iq : Option InstalledSkill) (n : String) (e : LockEntry) :
    (lockResult env isGlobal cwd ac iq n e).name = n := by
  cases iq with
  | none => rfl
  | some installed =>
      by_cases hp : env.parseSkillMd (env.pathJoin installed.canonicalPath "SKILL.md") = false
      · rw [lockResult_invalidMd env isGlobal cwd ac n e installed hp]
      · rw [lockResult_main env isGlobal cwd ac n e installed hp]

theorem mem_keys_mapDelete {m : InstalledMap} {k k' : String} :
    k' ∈ (mapDelete m k).map Prod.fst ↔ k' ∈ m.map Prod.fst ∧ k' ≠ k := by
  constructor
  · intro h
    obtain ⟨p, hp, rfl⟩ := List.mem_map.mp h
    obtain ⟨hpm, hpk⟩ := List.mem_filter.mp hp
    exact ⟨List.mem_map.mpr ⟨p, hpm, rfl⟩, by simpa using hpk⟩
  · rintro ⟨hk, hne⟩
    obtain ⟨p, hp, rfl⟩ := List.mem_map.mp hk
    exact List.mem_map.mpr ⟨p, List.mem_filter.mpr ⟨hp, by simpa using hne⟩, rfl⟩

theorem mem_keys_foldl_mapDelete {k : String} :
    ∀ (ks : List String) (m : InstalledMap),
      (k ∈ (ks.foldl mapDelete m).map Prod.fst ↔ k ∈ m.map Prod.fst ∧ k ∉ ks) := by
  intro ks
  induction ks with
  | nil => intro m; simp
  | cons k0 t ih =>
      intro m
      simp only [List.foldl_cons, ih, mem_keys_mapDelete, List.mem_cons]
      constructor
      · rintro ⟨⟨h1, h2⟩, h3⟩
        exact ⟨h1, by rintro (rfl | hc); exact h2 rfl; exact h3 hc⟩
      · rintro ⟨h1, h2⟩
        exact ⟨⟨h1, fun hc => h2 (Or.inl hc)⟩, fun hc => h2 (Or.inr hc)⟩

theorem eq_of_mem_keyNodup {n : String} {e : LockEntry} {kv : String × LockEntry} :
    ∀ {entries : List (String × LockEntry)},
      (entries.map Prod.fst).Nodup → (n, e) ∈ entries → kv ∈ entries → kv.1 = n →
      kv = (n, e) := by
  intro entries
  induction entries with
  | nil => intro _ h1; cases h1
  | cons a t ih =>
      intro hnd h1 h2 hk
      simp only [List.map_cons, List.nodup_cons] at hnd
      obtain ⟨hna, hnd⟩ := hnd
      rcases List.mem_cons.mp h2 with rfl | h2t
      · rcases List.mem_cons.mp h1 with h1e | h1t
        · rw [h1e]
        · exact absurd (hk ▸ List.mem_map.mpr ⟨(n, e), h1t, rfl⟩) hna
      · rcases List.mem_cons.mp h1 with h1e | h1t
        · exfalso
          apply hna
          rw [← h1e]
          exact hk ▸ List.mem_map.mpr ⟨kv, h2t, rfl⟩
        · exact ih hnd h1t h2t hk

/-- For a lock file with distinct keys containing the entry `(n, e)`,
the summary contains a result named `n`, and every result named `n` is
exactly the lock-file classification of `n` against the installed map. -/
theorem verifySkills_result_for_lock_entry (env : Env) (isGlobal : Bool) (cwd : String)
    (L1 L2 : List (String × LockEntry)) (n : String) (e : LockEntry)
    (installedSkills : List InstalledSkill) (detectedAgents : List AgentType)
    (agentFilter : Option (List AgentType))
    (hnodup : ((L1 ++ (n, e) :: L2).map Prod.fst).Nodup) :
    let S := verifySkills env isGlobal cwd (L1 ++ (n, e) :: L2) installedSkills
      detectedAgents agentFilter
    (∃ r ∈ S.results, r.name = n) ∧
    ∀ r ∈ S.results, r.name = n →
      r = lockResult env isGlobal cwd (agentsToCheckOf detectedAgents agentFilter)
            (mapGet (buildInstalledMap installedSkills) n) n e := by
  intro S
  have hperm : S.results.Perm
      (verifyLoopState env isGlobal cwd (L1 ++ (n, e) :: L2) installedSkills
        (agentsToCheckOf detectedAgents agentFilter)).results :=
    List.mergeSort_perm _ _
  have hlock := lockFold_results env isGlobal cwd
    (agentsToCheckOf detectedAgents agentFilter) (L1 ++ (n, e) :: L2)
    ⟨[], ⟨0, 0, 0, 0, 0, 0⟩, buildInstalledMap installedSkills⟩ hnodup
  have hun := untrackedFold_results env isGlobal cwd
    (agentsToCheckOf detectedAgents agentFilter)
    ((L1 ++ (n, e) :: L2).foldl
      (lockStep env isGlobal cwd (agentsToCheckOf detectedAgents agentFilter))
      ⟨[], ⟨0, 0, 0, 0, 0, 0⟩, buildInstalledMap installedSkills⟩).installedMap
    ((L1 ++ (n, e) :: L2).foldl
      (lockStep env isGlobal cwd (agentsToCheckOf detectedAgents agentFilter))
      ⟨[], ⟨0, 0, 0, 0, 0, 0⟩, buildInstalledMap installedSkills⟩)
  have hst2 : (verifyLoopState env isGlobal cwd (L1 ++ (n, e) :: L2) installedSkills
      (agentsToCheckOf detectedAgents agentFilter)).results
      = ((L1 ++ (n, e) :: L2).map (fun kv =>
          lockResult env isGlobal cwd (agentsToCheckOf detectedAgents agentFilter)
            (mapGet (buildInstalledMap installedSkills) kv.1) kv.1 kv.2))
        ++ (((L1 ++ (n, e) :: L2).foldl
              (lockStep env isGlobal cwd (agentsToCheckOf detectedAgents agentFilter))
              ⟨[], ⟨0, 0, 0, 0, 0, 0⟩, buildInstalledMap installedSkills⟩).installedMap).map
            (untrackedResult env isGlobal cwd (agentsToCheckOf detectedAgents agentFilter)) := by
    simp only [verifyLoopState]
    rw [hun, hlock]
    simp
  constructor
  · refine ⟨lockResult env isGlobal cwd (agentsToCheckOf detectedAgents agentFilter)
      (mapGet (buildInstalledMap installedSkills) n) n e, ?_, ?_⟩
    · apply hperm.mem_iff.mpr
      rw [hst2]
      apply List.mem_append_left
      exact List.mem_map.mpr ⟨(n, e), by simp, rfl⟩
    · exact lockResult_name env isGlobal cwd _ _ n e
  · intro r hr hname
    have hr2 := hperm.mem_iff.mp hr
    rw [hst2] at hr2
    rcases List.mem_append.mp hr2 with hmem | hmem
    · obtain ⟨kv, hkv, rfl⟩ := List.mem_map.mp hmem
      have hk : kv.1 = n := by
        rw [← hname, lockResult_name]
      have hin : (n, e) ∈ L1 ++ (n, e) :: L2 := by simp
      have := eq_of_mem_keyNodup hnodup hin hkv hk
      rw [this]
    · exfalso
      obtain ⟨kv, hkv, rfl⟩ := List.mem_map.mp hmem
      have hk : kv.1 = n := hname
      have hmemk : kv.1 ∈ (((L1 ++ (n, e) :: L2).foldl
          (lockStep env isGlobal cwd (agentsToCheckOf detectedAgents agentFilter))
          ⟨[], ⟨0, 0, 0, 0, 0, 0⟩, buildInstalledMap installedSkills⟩).installedMap).map
            Prod.fst :=
        List.mem_map.mpr ⟨kv, hkv, rfl⟩
      rw [lockFold_installedMap] at hmemk
      have := (mem_keys_foldl_mapDelete _ _).mp hmemk
      apply this.2
      rw [hk]
      exact List.mem_map.mpr ⟨(n, e), by simp, rfl⟩

/-- C8: in global scope, every skill present in the lock file and
installed with a parseable SKILL.md is reported `ok` with both
`expectedHash` and `actualHash` unset: no local recomputation happens. -/
theorem verifySkills_global_presence_ok (env : Env) (cwd : String)
    (L1 L2 : List (String × LockEntry)) (n : String) (e : LockEntry)
    (installedSkills : List InstalledSkill) (detectedAgents : List AgentType)
    (agentFilter : Option (List AgentType)) (sk : InstalledSkill)
    (hnodup : ((L1 ++ (n, e) :: L2).map Prod.fst).Nodup)
    (hinst : mapGet (buildInstalledMap installedSkills) n = some sk)
    (hmd : env.parseSkillMd (env.pathJoin sk.canonicalPath "SKILL.md") = true) :
    let S := verifySkills env true cwd (L1 ++ (n, e) :: L2) installedSkills
      detectedAgents agentFilter
    (∃ r ∈ S.results, r.name = n) ∧
    ∀ r ∈ S.results, r.name = n →
      r.status = VerifyStatus.ok ∧ r.expectedHash = none ∧ r.actualHash = none := by
  intro S
  obtain ⟨hex, huniq⟩ := verifySkills_result_for_lock_entry env true cwd L1 L2 n e
    installedSkills detectedAgents agentFilter hnodup
  refine ⟨hex, ?_⟩
  intro r hr hn
  rw [huniq r hr hn, hinst,
    lockResult_main env true cwd _ n e sk (by simp [hmd]),
    lockHashPart_global]
  exact ⟨rfl, rfl, rfl⟩

/-- C10: in local scope, a lock-file skill that is installed with a
parseable SKILL.md whose recorded `computedHash` is absent or the empty
string is reported `ok` whenever the fingerprint recomputation succeeds,
whatever hash it returns: the mismatch branch needs a truthy recorded
hash. -/
theorem verifySkills_falsy_recorded_hash_ok (env : Env) (cwd : String)
    (L1 L2 : List (String × LockEntry)) (n : String) (eh : Option String)
    (installedSkills : List InstalledSkill) (detectedAgents : List AgentType)
    (agentFilter : Option (List AgentType)) (sk : InstalledSkill) (h : String)
    (hnodup : ((L1 ++ (n, LockEntry.mk eh) :: L2).map Prod.fst).Nodup)
    (hinst : mapGet (buildInstalledMap installedSkills) n = some sk)
    (hmd : env.parseSkillMd (env.pathJoin sk.canonicalPath "SKILL.md") = true)
    (hh : env.computeSkillFolderHash sk.canonicalPath = Except.ok h)
    (heh : eh = none ∨ eh = some "") :
    let S := verifySkills env false cwd (L1 ++ (n, LockEntry.mk eh) :: L2)
      installedSkills detectedAgents agentFilter
    (∃ r ∈ S.results, r.name = n) ∧
    ∀ r ∈ S.results, r.name = n → r.status = VerifyStatus.ok := by
  intro S
  obtain ⟨hex, huniq⟩ := verifySkills_result_for_lock_entry env false cwd L1 L2 n
    (LockEntry.mk eh) installedSkills detectedAgents agentFilter hnodup
  refine ⟨hex, ?_⟩
  intro r hr hn
  have hm : (strTruthy (LockEntry.mk eh).computedHash
      && (some h != (LockEntry.mk eh).computedHash)) = false := by
    rcases heh with rfl | rfl <;> simp [strTruthy]
  rw [huniq r hr hn, hinst,
    lockResult_main env false cwd _ n (LockEntry.mk eh) sk (by simp [hmd]),
    lockHashPart_nomismatch env sk (LockEntry.mk eh) h hh hm]

/-- C2 (amended): in local scope, a lock-file skill that is installed
with a parseable SKILL.md, whose recorded `computedHash` is a non-empty
string, and whose recomputed fingerprint differs from it as a string,
is reported `modified` with `expectedHash` the recorded hash and
`actualHash` the recomputed one. -/
theorem verifySkills_modified_on_mismatch (env : Env) (cwd : String)
    (L1 L2 : List (String × LockEntry)) (n : String) (s : String)
    (installedSkills : List InstalledSkill) (detectedAgents : List AgentType)
    (agentFilter : Option (List AgentType)) (sk : InstalledSkill) (h : String)
    (hnodup : ((L1 ++ (n, LockEntry.mk (some s)) :: L2).map Prod.fst).Nodup)
    (hinst : mapGet (buildInstalledMap installedSkills) n = some sk)
    (hmd : env.parseSkillMd (env.pathJoin sk.canonicalPath "SKILL.md") = true)
    (hh : env.computeSkillFolderHash sk.canonicalPath = Except.ok h)
    (hs : s ≠ "") (hdiff : h ≠ s) :
    let S := verifySkills env false cwd (L1 ++ (n, LockEntry.mk (some s)) :: L2)
      installedSkills detectedAgents agentFilter
    (∃ r ∈ S.results, r.name = n) ∧
    ∀ r ∈ S.results, r.name = n →
      r.status = VerifyStatus.modified ∧ r.expectedHash = some s
        ∧ r.actualHash = some h := by
  intro S
  obtain ⟨hex, huniq⟩ := verifySkills_result_for_lock_entry env false cwd L1 L2 n
    (LockEntry.mk (some s)) installedSkills detectedAgents agentFilter hnodup
  refine ⟨hex, ?_⟩
  intro r hr hn
  have hm : (strTruthy (LockEntry.mk (some s)).computedHash
      && (some h != (LockEntry.mk (some s)).computedHash)) = true := by
    simp [strTruthy, hs, hdiff]
  rw [huniq r hr hn, hinst,
    lockResult_main env false cwd _ n (LockEntry.mk (some s)) sk (by simp [hmd]),
    lockHashPart_mismatch env sk (LockEntry.mk (some s)) h hh hm]
  exact ⟨rfl, rfl, rfl⟩

theorem verifyLoopState_results_decomp (env : Env) (isGlobal : Bool) (cwd : String)
    (ac : List AgentType) (entries : List (String × LockEntry))
    (installedSkills : List InstalledSkill)
    (hnodup : (entries.map Prod.fst).Nodup) :
    (verifyLoopState env isGlobal cwd entries installedSkills ac).results
      = entries.map (fun kv => lockResult env isGlobal cwd ac
          (mapGet (buildInstalledMap installedSkills) kv.1) kv.1 kv.2)
        ++ ((entries.map Prod.fst).foldl mapDelete
              (buildInstalledMap installedSkills)).map
            (untrackedResult env isGlobal cwd ac) := by
  simp only [verifyLoopState]
  rw [untrackedFold_results, lockFold_results _ _ _ _ _ _ hnodup, lockFold_installedMap]
  simp

theorem foldl_mapDelete_sublist :
    ∀ (ks : List String) (m : InstalledMap), (ks.foldl mapDelete m).Sublist m := by
  intro ks
  induction ks with
  | nil => intro m; exact List.Sublist.refl m
  | cons k t ih => intro m; exact (ih (mapDelete m k)).trans (List.filter_sublist m)

/-- C5: the results carry exactly one entry per distinct skill name in
the union of the lock entries and the installed skills, and they are
sorted ascending by name under the locale comparator (assumed to be a
total preorder, as `String.prototype.localeCompare` is). -/
theorem verifySkills_results_unique_sorted (env : Env) (isGlobal : Bool) (cwd : String)
    (lockedSkills : List (String × LockEntry)) (installedSkills : List InstalledSkill)
    (detectedAgents : List AgentType) (agentFilter : Option (List AgentType))
    (hnodup : (lockedSkills.map Prod.fst).Nodup)
    (htrans : ∀ a b c : String, env.localeCompare a b ≤ 0 →
      env.localeCompare b c ≤ 0 → env.localeCompare a c ≤ 0)
    (htotal : ∀ a b : String, env.localeCompare a b ≤ 0 ∨ env.localeCompare b a ≤ 0) :
    let S := verifySkills env isGlobal cwd lockedSkills installedSkills
      detectedAgents agentFilter
    (S.results.map (fun r => r.name)).Nodup ∧
    (∀ m, m ∈ S.results.map (fun r => r.name) ↔
      (m ∈ lockedSkills.map Prod.fst ∨ m ∈ installedSkills.map InstalledSkill.name)) ∧
    S.results.Pairwise (fun a b => env.localeCompare a.name b.name ≤ 0) := by
  intro S
  have hdecomp := verifyLoopState_results_decomp env isGlobal cwd
    (agentsToCheckOf detectedAgents agentFilter) lockedSkills installedSkills hnodup
  have hperm : S.results.Perm
      (verifyLoopState env isGlobal cwd lockedSkills installedSkills
        (agentsToCheckOf detectedAgents agentFilter)).results :=
    List.mergeSort_perm _ _
  have hpermn : (S.results.map (fun r => r.name)).Perm
      ((verifyLoopState env isGlobal cwd lockedSkills installedSkills
        (agentsToCheckOf detectedAgents agentFilter)).results.map (fun r => r.name)) :=
    hperm.map _
  have hnames : (verifyLoopState env isGlobal cwd lockedSkills installedSkills
      (agentsToCheckOf detectedAgents agentFilter)).results.map (fun r => r.name)
      = lockedSkills.map Prod.fst
        ++ ((lockedSkills.map Prod.fst).foldl mapDelete
              (buildInstalledMap installedSkills)).map Prod.fst := by
    rw [hdecomp, List.map_append, List.map_map, List.map_map]
    congr 1
    apply List.map_congr_left
    intro kv _
    exact lockResult_name env isGlobal cwd _ _ kv.1 kv.2
  refine ⟨?_, ?_, ?_⟩
  · rw [hpermn.nodup_iff, hnames]
    rw [List.nodup_append]
    refine ⟨hnodup, ?_, ?_⟩
    · exact ((foldl_mapDelete_sublist _ _).map Prod.fst).nodup
        (nodup_keys_buildInstalledMap installedSkills)
    · intro x hx hy
      have := (mem_keys_foldl_mapDelete _ _).mp hy
      exact this.2 hx
  · intro m
    rw [hpermn.mem_iff, hnames, List.mem_append, mem_keys_foldl_mapDelete,
      mem_keys_buildInstalledMap]
    constructor
    · rintro (h | ⟨h1, _⟩)
      · exact Or.inl h
      · exact Or.inr h1
    · rintro (h | h)
      · exact Or.inl h
      · by_cases hc : m ∈ lockedSkills.map Prod.fst
        · exact Or.inl hc
        · exact Or.inr ⟨h, hc⟩
  · have hsorted := @List.sorted_mergeSort VerifyResult (resultLE env)
      (fun a b c hab hbc => by
        unfold resultLE at hab hbc ⊢
        exact decide_eq_true (htrans a.name b.name c.name
          (of_decide_eq_true hab) (of_decide_eq_true hbc)))
      (fun a b => by
        unfold resultLE
        rcases htotal a.name b.name with h | h
        · simp [h]
        · simp [h])
      (verifyLoopState env isGlobal cwd lockedSkills installedSkills
        (agentsToCheckOf detectedAgents agentFilter)).results
    exact hsorted.imp (fun hab => of_decide_eq_true hab)

/-- C9: the reconciler is deterministic: two environments that agree on
every collaborator result and filesystem observation yield identical
summaries for the same inputs. -/
theorem verifySkills_deterministic (e1 e2 : Env) (isGlobal : Bool) (cwd : String)
    (lockedSkills : List (String × LockEntry)) (installedSkills : List InstalledSkill)
    (detectedAgents : List AgentType) (agentFilter : Option (List AgentType))
    (h1 : ∀ p, e1.parseSkillMd p = e2.parseSkillMd p)
    (h2 : ∀ p, e1.computeSkillFolderHash p = e2.computeSkillFolderHash p)
    (h3 : ∀ a g c, e1.getAgentBaseDir a g c = e2.getAgentBaseDir a g c)
    (h4 : ∀ g c, e1.getCanonicalSkillsDir g c = e2.getCanonicalSkillsDir g c)
    (h5 : ∀ p, e1.lstatKind p = e2.lstatKind p)
    (h6 : ∀ p, e1.readlinkTarget p = e2.readlinkTarget p)
    (h7 : ∀ a b, e1.pathJoin a b = e2.pathJoin a b)
    (h8 : ∀ p, e1.pathDirname p = e2.pathDirname p)
    (h9 : ∀ a b, e1.pathResolve a b = e2.pathResolve a b)
    (h10 : ∀ a b, e1.localeCompare a b = e2.localeCompare a b) :
    verifySkills e1 isGlobal cwd lockedSkills installedSkills detectedAgents agentFilter
      = verifySkills e2 isGlobal cwd lockedSkills installedSkills
          detectedAgents agentFilter := by
  have he : e1 = e2 := by
    obtain ⟨f1, f2, f3, f4, f5, f6, f7, f8, f9, f10⟩ := e1
    obtain ⟨g1, g2, g3, g4, g5, g6, g7, g8, g9, g10⟩ := e2
    congr 1
    · funext p; exact h1 p
    · funext p; exact h2 p
    · funext a g c; exact h3 a g c
    · funext g c; exact h4 g c
    · funext p; exact h5 p
    · funext p; exact h6 p
    · funext a b; exact h7 a b
    · funext p; exact h8 p
    · funext a b; exact h9 a b
    · funext a b; exact h10 a b
  rw [he]

theorem mapDelete_comm (m : InstalledMap) (a b : String) :
    mapDelete (mapDelete m a) b = mapDelete (mapDelete m b) a := by
  unfold mapDelete
  rw [List.filter_filter, List.filter_filter]
  apply List.filter_congr
  intro x _
  exact Bool.and_comm _ _

theorem foldl_mapDelete_pull :
    ∀ (ks : List String) (m : InstalledMap) (k : String),
      ks.foldl mapDelete (mapDelete m k) = mapDelete (ks.foldl mapDelete m) k := by
  intro ks
  induction ks with
  | nil => intro m k; rfl
  | cons k0 t ih =>
      intro m k
      simp only [List.foldl_cons]
      rw [mapDelete_comm m k k0, ih]

theorem anyKey_mapDelete_ne {m : InstalledMap} {k n : String} (hne : k ≠ n) :
    (mapDelete m n).any (fun p => p.1 == k) = m.any (fun p => p.1 == k) := by
  unfold mapDelete
  rw [List.any_filter]
  congr 1
  funext p
  by_cases h2 : p.1 = k
  · simp [h2, hne]
  · simp [h2]

theorem mapDelete_mapSet_self (m : InstalledMap) (k : String) (v : InstalledSkill) :
    mapDelete (mapSet m k v) k = mapDelete m k := by
  unfold mapSet
  by_cases ha : m.any (fun p => p.1 == k) = true
  · rw [if_pos ha]
    unfold mapDelete
    rw [List.filter_map]
    have hpred : ∀ p ∈ m, (((fun p => if p.1 == k then (k, v) else p) p).1 != k)
        = (p.1 != k) := by
      intro p _
      by_cases hc : p.1 = k
      · simp [hc]
      · simp [hc]
    rw [show ((fun p => p.1 != k) ∘ (fun p => if p.1 == k then (k, v) else p))
        = fun p => ((fun p => if p.1 == k then (k, v) else p) p).1 != k from rfl]
    rw [List.filter_congr hpred]
    have hid : ∀ p ∈ m.filter (fun p => p.1 != k),
        (fun p => if p.1 == k then (k, v) else p) p = p := by
      intro p hp
      have := (List.mem_filter.mp hp).2
      simp only [bne_iff_ne, ne_eq] at this
      simp [this]
    rw [List.map_congr_left hid, List.map_id']
  · rw [if_neg ha]
    unfold mapDelete
    rw [List.filter_append]
    simp

theorem mapDelete_mapSet_comm {k n : String} (m : InstalledMap) (v : InstalledSkill)
    (hkn : k ≠ n) :
    mapSet (mapDelete m n) k v = mapDelete (mapSet m k v) n := by
  have hfst : ∀ p : String × InstalledSkill,
      ((fun p => if p.1 == k then (k, v) else p) p).1 = p.1 := by
    intro p
    by_cases hc : p.1 = k
    · simp [hc]
    · simp [hc]
  by_cases ha : m.any (fun p => p.1 == k) = true
  · have ha' : (mapDelete m n).any (fun p => p.1 == k) = true := by
      rw [anyKey_mapDelete_ne hkn]; exact ha
    unfold mapSet
    rw [if_pos ha', if_pos ha]
    unfold mapDelete
    rw [List.filter_map]
    congr 1
    apply List.filter_congr
    intro p _
    show (p.1 != n) = (((fun p => if p.1 == k then (k, v) else p) p).1 != n)
    rw [hfst p]
  · have ha' : (mapDelete m n).any (fun p => p.1 == k) = false := by
      rw [anyKey_mapDelete_ne hkn]
      exact Bool.not_eq_true _ ▸ ha
    unfold mapSet
    rw [if_neg (by simp [ha']), if_neg ha]
    unfold mapDelete
    rw [List.filter_append]
    simp [hkn]

theorem buildFold_filter (n : String) :
    ∀ (l : List InstalledSkill) (m : InstalledMap),
      (l.filter (fun s => s.name != n)).foldl (fun m s => mapSet m s.name s)
          (mapDelete m n)
        = mapDelete (l.foldl (fun m s => mapSet m s.name s) m) n := by
  intro l
  induction l with
  | nil => intro m; rfl
  | cons s t ih =>
      intro m
      by_cases hs : s.name = n
      · rw [List.filter_cons_of_neg (by simp [hs])]
        rw [List.foldl_cons]
        rw [← ih (mapSet m s.name s), hs, mapDelete_mapSet_self]
      · rw [List.filter_cons_of_pos (by simp [hs])]
        rw [List.foldl_cons, List.foldl_cons]
        rw [mapDelete_mapSet_comm m s hs, ih (mapSet m s.name s)]

theorem buildInstalledMap_filter (l : List InstalledSkill) (n : String) :
    buildInstalledMap (l.filter (fun s => s.name != n))
      = mapDelete (buildInstalledMap l) n := by
  unfold buildInstalledMap
  have := buildFold_filter n l ([] : InstalledMap)
  simpa [mapDelete] using this

/-- C3 (amended): a fingerprint-computation failure degrades only the
failing skill, which is reported `invalid` with its `error` field left
unset (the thrown message is discarded); every other skill is classified
exactly as it would have been had the failing skill been absent from the
lock file and from disk. -/
theorem verifySkills_hash_throw_isolated (env : Env) (cwd : String)
    (L1 L2 : List (String × LockEntry)) (n : String) (e : LockEntry)
    (installedSkills : List InstalledSkill) (detectedAgents : List AgentType)
    (agentFilter : Option (List AgentType)) (sk : InstalledSkill) (msg : String)
    (hnodup : ((L1 ++ (n, e) :: L2).map Prod.fst).Nodup)
    (hinst : mapGet (buildInstalledMap installedSkills) n = some sk)
    (hmd : env.parseSkillMd (env.pathJoin sk.canonicalPath "SKILL.md") = true)
    (hthrow : env.computeSkillFolderHash sk.canonicalPath = Except.error msg) :
    let full := verifySkills env false cwd (L1 ++ (n, e) :: L2) installedSkills
      detectedAgents agentFilter
    let reduced := verifySkills env false cwd (L1 ++ L2)
      (installedSkills.filter (fun s => s.name != n)) detectedAgents agentFilter
    (∃ r ∈ full.results, r.name = n) ∧
    (∀ r ∈ full.results, r.name = n →
      r.status = VerifyStatus.invalid ∧ r.error = none) ∧
    (full.results.filter (fun r => r.name != n)).Perm reduced.results := by
  intro full reduced
  have hmapkeys : (L1 ++ (n, e) :: L2).map Prod.fst
      = L1.map Prod.fst ++ n :: L2.map Prod.fst := by simp
  have hmid : (n :: (L1.map Prod.fst ++ L2.map Prod.fst)).Nodup :=
    List.nodup_middle.mp (hmapkeys ▸ hnodup)
  have hnK : n ∉ L1.map Prod.fst ++ L2.map Prod.fst := (List.nodup_cons.mp hmid).1
  have hnodupR : ((L1 ++ L2).map Prod.fst).Nodup := by
    rw [List.map_append]
    exact (List.nodup_cons.mp hmid).2
  have hn1 : ∀ kv ∈ L1, (kv : String × LockEntry).1 ≠ n := by
    intro kv hkv he
    exact hnK (List.mem_append_left _ (he ▸ List.mem_map.mpr ⟨kv, hkv, rfl⟩))
  have hn2 : ∀ kv ∈ L2, (kv : String × LockEntry).1 ≠ n := by
    intro kv hkv he
    exact hnK (List.mem_append_right _ (he ▸ List.mem_map.mpr ⟨kv, hkv, rfl⟩))
  obtain ⟨hex, huniq⟩ := verifySkills_result_for_lock_entry env false cwd L1 L2 n e
    installedSkills detectedAgents agentFilter hnodup
  refine ⟨hex, ?_, ?_⟩
  · intro r hr hn
    rw [huniq r hr hn, hinst,
      lockResult_main env false cwd _ n e sk (by simp [hmd]),
      lockHashPart_throw env sk e msg hthrow]
    exact ⟨rfl, rfl⟩
  · have hF := verifyLoopState_results_decomp env false cwd
      (agentsToCheckOf detectedAgents agentFilter) (L1 ++ (n, e) :: L2)
      installedSkills hnodup
    have hR := verifyLoopState_results_decomp env false cwd
      (agentsToCheckOf detectedAgents agentFilter) (L1 ++ L2)
      (installedSkills.filter (fun s => s.name != n)) hnodupR
    have hmaps : ((L1 ++ (n, e) :: L2).map Prod.fst).foldl mapDelete
        (buildInstalledMap installedSkills)
        = ((L1 ++ L2).map Prod.fst).foldl mapDelete
            (buildInstalledMap (installedSkills.filter (fun s => s.name != n))) := by
      rw [buildInstalledMap_filter]
      simp only [List.map_append, List.map_cons, List.foldl_append, List.foldl_cons,
        foldl_mapDelete_pull]
    have huntr : ∀ kv ∈ ((L1 ++ L2).map Prod.fst).foldl mapDelete
        (buildInstalledMap (installedSkills.filter (fun s => s.name != n))),
        (kv : String × InstalledSkill).1 ≠ n := by
      intro kv hkv
      have hmem : kv.1 ∈ (((L1 ++ L2).map Prod.fst).foldl mapDelete
          (buildInstalledMap (installedSkills.filter (fun s => s.name != n)))).map
            Prod.fst := List.mem_map.mpr ⟨kv, hkv, rfl⟩
      rw [buildInstalledMap_filter] at hmem
      have h1 := ((mem_keys_foldl_mapDelete _ _).mp hmem).1
      exact (mem_keys_mapDelete.mp h1).2
    have hkey : ((verifyLoopState env false cwd (L1 ++ (n, e) :: L2) installedSkills
          (agentsToCheckOf detectedAgents agentFilter)).results).filter
            (fun r => r.name != n)
        = (verifyLoopState env false cwd (L1 ++ L2)
            (installedSkills.filter (fun s => s.name != n))
            (agentsToCheckOf detectedAgents agentFilter)).results := by
      rw [hF, hR, List.filter_append]
      congr 1
      · rw [List.filter_map]
        rw [List.filter_congr (by
          intro kv _
          show ((lockResult env false cwd (agentsToCheckOf detectedAgents agentFilter)
            (mapGet (buildInstalledMap installedSkills) kv.1) kv.1 kv.2).name != n)
              = (kv.1 != n)
          rw [lockResult_name])]
        rw [List.filter_append, List.filter_cons_of_neg (by simp),
          List.filter_eq_self.mpr (by
            intro kv hkv
            simpa using hn1 kv hkv),
          List.filter_eq_self.mpr (by
            intro kv hkv
            simpa using hn2 kv hkv)]
        apply List.map_congr_left
        intro kv hkv
        have hne : n ≠ kv.1 := by
          rcases List.mem_append.mp hkv with h | h
          · exact fun hc => hn1 kv h hc.symm
          · exact fun hc => hn2 kv h hc.symm
        rw [buildInstalledMap_filter, mapGet_mapDelete_ne hne]
      · rw [hmaps]
        apply List.filter_eq_self.mpr
        intro r hr
        obtain ⟨kv, hkv, rfl⟩ := List.mem_map.mp hr
        simpa using huntr kv hkv
    have hstep1 : (full.results.filter (fun r => r.name != n)).Perm
        (((verifyLoopState env false cwd (L1 ++ (n, e) :: L2) installedSkills
          (agentsToCheckOf detectedAgents agentFilter)).results).filter
            (fun r => r.name != n)) :=
      (List.mergeSort_perm _ _).filter _
    rw [hkey] at hstep1
    exact hstep1.trans (List.mergeSort_perm _ _).symm

/-- C1 (amended): every result classified `ok`, `modified`, `untracked`,
or `invalid` by a hash-computation failure carries exactly the Symlink
Integrity Checker's findings for its name and path, and the aggregate
`brokenSymlinks` counter is the total number of findings; results
classified `missing`, or `invalid` because `SKILL.md` did not parse,
carry no findings (the checker is not consulted for them). -/
theorem verifySkills_symlink_findings (env : Env) (isGlobal : Bool) (cwd : String)
    (lockedSkills : List (String × LockEntry)) (installedSkills : List InstalledSkill)
    (detectedAgents : List AgentType) (agentFilter : Option (List AgentType)) :
    let S := verifySkills env isGlobal cwd lockedSkills installedSkills
      detectedAgents agentFilter
    (∀ r ∈ S.results,
      symlinkFindingsSpec env isGlobal cwd (agentsToCheckOf detectedAgents agentFilter) r) ∧
    S.counts.brokenSymlinks = totalBroken S.results := by
  intro S
  constructor
  · intro r hr
    have hperm : S.results.Perm
        (verifyLoopState env isGlobal cwd lockedSkills installedSkills
          (agentsToCheckOf detectedAgents agentFilter)).results :=
      List.mergeSort_perm _ _
    have hr2 := hperm.mem_iff.mp hr
    unfold verifyLoopState at hr2
    rcases untrackedFold_results_mem env isGlobal cwd _ _ _ _ hr2 with h1 | h1
    · rcases lockFold_results_mem env isGlobal cwd _ _ _ _ h1 with h2 | h2
      · simp at h2
      · obtain ⟨iq, n, e, rfl⟩ := h2
        exact lockResult_symlinkFindings env isGlobal cwd _ iq n e
    · obtain ⟨kv, rfl⟩ := h1
      exact untrackedResult_symlinkFindings env isGlobal cwd _ kv
  · have ha := verifyLoopState_aligned env isGlobal cwd lockedSkills installedSkills
      (agentsToCheckOf detectedAgents agentFilter)
    have hperm : S.results.Perm
        (verifyLoopState env isGlobal cwd lockedSkills installedSkills
          (agentsToCheckOf detectedAgents agentFilter)).results :=
      List.mergeSort_perm _ _
    rw [totalBroken_perm hperm]
    exact ha.2.2.2.2.2

theorem results_eval {env : Env} {g : Bool} {cwd : String}
    {L : List (String × LockEntry)} {I : List InstalledSkill}
    {da : List AgentType} {af : Option (List AgentType)} {r : VerifyResult}
    (h : (verifyLoopState env g cwd L I (agentsToCheckOf da af)).results = [r]) :
    (verifySkills env g cwd L I da af).results = [r] := by
  show ((verifyLoopState env g cwd L I (agentsToCheckOf da af)).results).mergeSort
    (resultLE env) = [r]
  rw [h, List.mergeSort_singleton]

theorem lcLen_trans (a b c : String) :
    lcLen a b ≤ 0 → lcLen b c ≤ 0 → lcLen a c ≤ 0 := by
  unfold lcLen
  omega

theorem lcLen_total (a b : String) : lcLen a b ≤ 0 ∨ lcLen b a ≤ 0 := by
  unfold lcLen
  omega

/-- C1 (counterexample): a skill whose SKILL.md does not parse is
classified `invalid`, the Symlink Integrity Checker would report one
broken link for it, yet its result carries no findings and the aggregate
counter stays `0`: the checker is not invoked for that skill. -/
theorem verifySkills_invalidMd_skips_checker_cex :
    (verifySkills envW false "/w" [("x", LockEntry.mk (some "h"))]
        [InstalledSkill.mk "x" "/s/b" ["A"]] ["A"] none).results
      = [{ name := "x", path := "/s/b", status := VerifyStatus.invalid,
           expectedHash := none, actualHash := none, agents := ["A"],
           brokenSymlinks := [], error := some "SKILL.md is missing or invalid" }] ∧
    (verifySkills envW false "/w" [("x", LockEntry.mk (some "h"))]
        [InstalledSkill.mk "x" "/s/b" ["A"]] ["A"] none).counts.brokenSymlinks = 0 ∧
    checkSymlinkIntegrity envW "x" "/s/b" (agentsToCheckOf ["A"] none) false "/w"
      = [⟨"A", "/w/A/x"⟩] ∧
    ¬ ∃ r ∈ (verifySkills envW false "/w" [("x", LockEntry.mk (some "h"))]
        [InstalledSkill.mk "x" "/s/b" ["A"]] ["A"] none).results,
      r.brokenSymlinks = checkSymlinkIntegrity envW "x" "/s/b"
        (agentsToCheckOf ["A"] none) false "/w" := by
  have hres : (verifySkills envW false "/w" [("x", LockEntry.mk (some "h"))]
      [InstalledSkill.mk "x" "/s/b" ["A"]] ["A"] none).results
      = [{ name := "x", path := "/s/b", status := VerifyStatus.invalid,
           expectedHash := none, actualHash := none, agents := ["A"],
           brokenSymlinks := [], error := some "SKILL.md is missing or invalid" }] :=
    results_eval (by decide)
  refine ⟨hres, by decide, by decide, ?_⟩
  rw [hres]
  decide

/-- C1 (witness for the amended theorem). -/
theorem verifySkills_symlink_findings_witness :
    (verifySkills envW false "/w" [("x", LockEntry.mk (some "h"))]
        [InstalledSkill.mk "x" "/s/b" ["A"]] ["A"] none).counts.brokenSymlinks
      = totalBroken (verifySkills envW false "/w" [("x", LockEntry.mk (some "h"))]
          [InstalledSkill.mk "x" "/s/b" ["A"]] ["A"] none).results ∧
    symlinkFindingsSpec envW false "/w" (agentsToCheckOf ["A"] none)
      (VerifyResult.mk "x" "/s/b" VerifyStatus.invalid none none ["A"] []
        (some "SKILL.md is missing or invalid")) := by
  have h := verifySkills_symlink_findings envW false "/w"
    [("x", LockEntry.mk (some "h"))] [InstalledSkill.mk "x" "/s/b" ["A"]] ["A"] none
  refine ⟨h.2, h.1 _ ?_⟩
  have hres : (verifySkills envW false "/w" [("x", LockEntry.mk (some "h"))]
      [InstalledSkill.mk "x" "/s/b" ["A"]] ["A"] none).results
      = [{ name := "x", path := "/s/b", status := VerifyStatus.invalid,
           expectedHash := none, actualHash := none, agents := ["A"],
           brokenSymlinks := [], error := some "SKILL.md is missing or invalid" }] :=
    results_eval (by decide)
  rw [hres]
  exact List.mem_singleton.mpr rfl

/-- C2 (counterexample): the recorded `computedHash` is the empty
string, the recomputed fingerprint is `"h2"`, the two differ as strings,
yet the skill is reported `ok`: the mismatch branch needs a truthy
recorded hash. -/
theorem verifySkills_empty_hash_not_modified_cex :
    (verifySkills envW false "/w" [("x", LockEntry.mk (some ""))]
        [InstalledSkill.mk "x" "/s/x" []] [] none).results
      = [{ name := "x", path := "/s/x", status := VerifyStatus.ok,
           expectedHash := some "", actualHash := some "h2", agents := [],
           brokenSymlinks := [], error := none }] ∧
    envW.computeSkillFolderHash "/s/x" = Except.ok "h2" ∧
    ("h2" : String) ≠ "" ∧
    ¬ ∃ r ∈ (verifySkills envW false "/w" [("x", LockEntry.mk (some ""))]
        [InstalledSkill.mk "x" "/s/x" []] [] none).results,
      r.status = VerifyStatus.modified := by
  have hres : (verifySkills envW false "/w" [("x", LockEntry.mk (some ""))]
      [InstalledSkill.mk "x" "/s/x" []] [] none).results
      = [{ name := "x", path := "/s/x", status := VerifyStatus.ok,
           expectedHash := some "", actualHash := some "h2", agents := [],
           brokenSymlinks := [], error := none }] :=
    results_eval (by decide)
  refine ⟨hres, rfl, by decide, ?_⟩
  rw [hres]
  decide

/-- C2 (witness for the amended theorem). -/
theorem verifySkills_modified_on_mismatch_witness :
    ∃ r ∈ (verifySkills envW false "/w" [("x", LockEntry.mk (some "h1"))]
        [InstalledSkill.mk "x" "/s/x" []] [] none).results,
      r.name = "x" ∧ r.status = VerifyStatus.modified ∧
        r.expectedHash = some "h1" ∧ r.actualHash = some "h2" := by
  obtain ⟨hex, huniq⟩ := verifySkills_modified_on_mismatch envW "/w" [] [] "x" "h1"
    [InstalledSkill.mk "x" "/s/x" []] [] none (InstalledSkill.mk "x" "/s/x" []) "h2"
    (by decide) (by decide) (by decide) rfl (by decide) (by decide)
  obtain ⟨r, hr, hn⟩ := hex
  exact ⟨r, hr, hn, huniq r hr hn⟩

/-- C3 (counterexample): hashing throws `"boom"`, the skill is reported
`invalid`, but the thrown message is not captured: the `error` field of
the result is unset and no result carries it. -/
theorem verifySkills_throw_discards_error_cex :
    (verifySkills envW false "/w" [("x", LockEntry.mk (some "h1"))]
        [InstalledSkill.mk "x" "/s/t" []] [] none).results
      = [{ name := "x", path := "/s/t", status := VerifyStatus.invalid,
           expectedHash := some "h1", actualHash := none, agents := [],
           brokenSymlinks := [], error := none }] ∧
    envW.computeSkillFolderHash "/s/t" = Except.error "boom" ∧
    ¬ ∃ r ∈ (verifySkills envW false "/w" [("x", LockEntry.mk (some "h1"))]
        [InstalledSkill.mk "x" "/s/t" []] [] none).results,
      r.error = some "boom" := by
  have hres : (verifySkills envW false "/w" [("x", LockEntry.mk (some "h1"))]
      [InstalledSkill.mk "x" "/s/t" []] [] none).results
      = [{ name := "x", path := "/s/t", status := VerifyStatus.invalid,
           expectedHash := some "h1", actualHash := none, agents := [],
           brokenSymlinks := [], error := none }] :=
    results_eval (by decide)
  refine ⟨hres, rfl, ?_⟩
  rw [hres]
  decide

/-- C3 (witness for the amended theorem). -/
theorem verifySkills_hash_throw_isolated_witness :
    (∃ r ∈ (verifySkills envW false "/w" [("x", LockEntry.mk (some "h1"))]
        [InstalledSkill.mk "x" "/s/t" []] [] none).results,
      r.name = "x" ∧ r.status = VerifyStatus.invalid ∧ r.error = none) ∧
    ((verifySkills envW false "/w" [("x", LockEntry.mk (some "h1"))]
        [InstalledSkill.mk "x" "/s/t" []] [] none).results.filter
          (fun r => r.name != "x")).Perm
      (verifySkills envW false "/w" []
        ([InstalledSkill.mk "x" "/s/t" []].filter (fun s => s.name != "x"))
        [] none).results := by
  obtain ⟨hex, hall, hperm⟩ := verifySkills_hash_throw_isolated envW "/w" [] [] "x"
    (LockEntry.mk (some "h1")) [InstalledSkill.mk "x" "/s/t" []] [] none
    (InstalledSkill.mk "x" "/s/t" []) "boom"
    (by decide) (by decide) (by decide) rfl
  obtain ⟨r, hr, hn⟩ := hex
  exact ⟨⟨r, hr, hn, hall r hr hn⟩, hperm⟩

/-- C5 (witness). -/
theorem verifySkills_results_unique_sorted_witness :
    ((verifySkills envW false "/w" [("x", LockEntry.mk (some "h1"))]
        [InstalledSkill.mk "x" "/s/x" [], InstalledSkill.mk "yy" "/s/y" []]
        [] none).results.map (fun r => r.name)).Nodup ∧
    ("yy" ∈ (verifySkills envW false "/w" [("x", LockEntry.mk (some "h1"))]
        [InstalledSkill.mk "x" "/s/x" [], InstalledSkill.mk "yy" "/s/y" []]
        [] none).results.map (fun r => r.name) ↔
      ("yy" ∈ [("x", LockEntry.mk (some "h1"))].map Prod.fst ∨
       "yy" ∈ [InstalledSkill.mk "x" "/s/x" [],
         InstalledSkill.mk "yy" "/s/y" []].map InstalledSkill.name)) ∧
    (verifySkills envW false "/w" [("x", LockEntry.mk (some "h1"))]
        [InstalledSkill.mk "x" "/s/x" [], InstalledSkill.mk "yy" "/s/y" []]
        [] none).results.Pairwise
      (fun a b => envW.localeCompare a.name b.name ≤ 0) := by
  obtain ⟨h1, h2, h3⟩ := verifySkills_results_unique_sorted envW false "/w"
    [("x", LockEntry.mk (some "h1"))]
    [InstalledSkill.mk "x" "/s/x" [], InstalledSkill.mk "yy" "/s/y" []] [] none
    (by decide) lcLen_trans lcLen_total
  exact ⟨h1, h2 "yy", h3⟩

/-- C6 (witness): agent `B`'s base directory is the canonical store;
it is skipped and contributes nothing, whatever its link state. -/
theorem checkSymlinkIntegrity_skips_canonical_witness :
    checkSymlinkIntegrity envW "x" "/s/x" ["A", "B"] false "/w"
      = checkSymlinkIntegrity envW "x" "/s/x"
          (["A", "B"].filter (fun x => x != "B")) false "/w" ∧
    (BrokenSymlink.mk "A" "/w/A/x").agent ≠ "B" := by
  have h := checkSymlinkIntegrity_skips_canonical envW "x" "/s/x" ["A", "B"]
    false "/w" "B" (by decide)
  exact ⟨h.2, h.1 (BrokenSymlink.mk "A" "/w/A/x") (by decide)⟩

/-- C8 (witness). -/
theorem verifySkills_global_presence_ok_witness :
    ∃ r ∈ (verifySkills envW true "/w" [("x", LockEntry.mk (some "h1"))]
        [InstalledSkill.mk "x" "/s/x" []] [] none).results,
      r.name = "x" ∧ r.status = VerifyStatus.ok ∧
        r.expectedHash = none ∧ r.actualHash = none := by
  obtain ⟨hex, huniq⟩ := verifySkills_global_presence_ok envW "/w" [] [] "x"
    (LockEntry.mk (some "h1")) [InstalledSkill.mk "x" "/s/x" []] [] none
    (InstalledSkill.mk "x" "/s/x" []) (by decide) (by decide) (by decide)
  obtain ⟨r, hr, hn⟩ := hex
  exact ⟨r, hr, hn, huniq r hr hn⟩

/-- C9 (witness). -/
theorem verifySkills_deterministic_witness :
    verifySkills envW false "/w" [("x", LockEntry.mk (some "h1"))]
        [InstalledSkill.mk "x" "/s/x" []] ["A"] none
      = verifySkills envW false "/w" [("x", LockEntry.mk (some "h1"))]
          [InstalledSkill.mk "x" "/s/x" []] ["A"] none :=
  verifySkills_deterministic envW envW false "/w" [("x", LockEntry.mk (some "h1"))]
    [InstalledSkill.mk "x" "/s/x" []] ["A"] none
    (fun _ => rfl) (fun _ => rfl) (fun _ _ _ => rfl) (fun _ _ => rfl)
    (fun _ => rfl) (fun _ => rfl) (fun _ _ => rfl) (fun _ => rfl)
    (fun _ _ => rfl) (fun _ _ => rfl)

/-- C10 (witness). -/
theorem verifySkills_falsy_recorded_hash_ok_witness :
    ∃ r ∈ (verifySkills envW false "/w" [("x", LockEntry.mk (some ""))]
        [InstalledSkill.mk "x" "/s/x" []] [] none).results,
      r.name = "x" ∧ r.status = VerifyStatus.ok := by
  obtain ⟨hex, huniq⟩ := verifySkills_falsy_recorded_hash_ok envW "/w" [] [] "x"
    (some "") [InstalledSkill.mk "x" "/s/x" []] [] none
    (InstalledSkill.mk "x" "/s/x" []) "h2"
    (by decide) (by decide) (by decide) rfl (Or.inr rfl)
  obtain ⟨r, hr, hn⟩ := hex
  exact ⟨r, hr, hn, huniq r hr hn⟩

end SkillsVerify
